import Mathlib

/-!
Verification of the mutation-report resistance pipeline.

The Lean definitions below are a shallow embedding of the Python sources:
`resistance_list.py` (the resistance matcher and its `confidence` helper),
`mutation_list.py` (the reference mutation table loader),
`sample_annotation.py` (the isolate annotation table and its sort), and
`low_quals.py` (the low-quality segment filter).

Python floats are modelled as rationals; the heterogeneous Python lists
`nuc_record` / `gene_record` are modelled as structures that keep the string
fields and the appended drug-call lists apart while exposing the Python
`len()` of the original list.  File I/O is factored out: loaders take the
already-split rows of the file as input, and fallible parsing is modelled
with `Option` / `Except`.
-/

namespace MutationReport

/-- The `Mutation` namedtuple of `mutation_list.py`:
`(gene, nuchange, aachange, drug, pvalue, likelihood)`. -/
structure Mutation where
  gene : String
  nuchange : String
  aachange : String
  drug : String
  pvalue : ℚ
  likelihood : ℚ
deriving DecidableEq

/-- The `IsolateMutation` namedtuple of `sample_annotation.py`:
`(gene, nuchange, aachange, refpos, refnuc, altnuc, annotation, codonpos)`.
The annotation field is called `annot` here. -/
structure IsolateMutation where
  gene : String
  nuchange : String
  aachange : String
  refpos : String
  refnuc : String
  altnuc : String
  annot : String
  codonpos : String
deriving DecidableEq

/-- `confidence(lr)` from `resistance_list.py`: the confidence tier of a
likelihood ratio.  The Python chained comparison `10 > lr >= 5` is the
conjunction of its two comparisons. -/
def confidence (lr : ℚ) : String :=
  if lr ≥ 10 then "High"
  else if 10 > lr ∧ lr ≥ 5 then "Medium"
  else "Low"

/-- The loop of `ResistanceList.find_drug_resistances`: scan the reference
rows, appending a `[drug, confidence]` pair for every row whose
`(gene, nuchange)` equals the target's.  The source seeds the list on the
first match (`drug_resistances = [[...]]` when empty) and appends on every
later one. -/
def drugScan (tg tn : String) :
    List Mutation → List (String × String) → List (String × String)
  | [], acc => acc
  | reference :: rest, acc =>
      drugScan tg tn rest
        (if reference.gene = tg ∧ reference.nuchange = tn then
          (if acc.length = 0 then [(reference.drug, confidence reference.likelihood)]
           else acc ++ [(reference.drug, confidence reference.likelihood)])
         else acc)

/-- `ResistanceList.find_drug_resistances`: returns `(success, drug_resistances)`
where `success` is true exactly when the list is nonempty. -/
def find_drug_resistances (references : List Mutation) (tg tn : String) :
    Bool × List (String × String) :=
  let dr := drugScan tg tn references []
  (decide (dr.length > 0), dr)

/-- The Python list `nuc_record`: its leading string fields and the drug-call
lists appended after them.  In the source this is one heterogeneous list;
`len` below is the Python `len()` of that list. -/
structure NucRecord where
  fields : List String
  drugLists : List (List (String × String))
deriving DecidableEq

/-- Python `len(nuc_record)`. -/
def NucRecord.len (nr : NucRecord) : Nat := nr.fields.length + nr.drugLists.length

/-- Python `nuc_record[0]` (the string fields always come first and are
nonempty in every record the code builds). -/
def NucRecord.head (nr : NucRecord) : String := nr.fields.headD ""

/-- The initial placeholder `nuc_record = ['xxxx'] * 5`. -/
def initNucRecord : NucRecord := ⟨["xxxx", "xxxx", "xxxx", "xxxx", "xxxx"], []⟩

/-- A fresh `nuc_record` built from a target row:
`[nuchange, aachange, refpos, refnuc, altnuc, annotation, codonpos]`. -/
def mkNucRecord (t : IsolateMutation) : NucRecord :=
  ⟨[t.nuchange, t.aachange, t.refpos, t.refnuc, t.altnuc, t.annot, t.codonpos], []⟩

/-- The Python list `gene_record`: the gene name followed by the appended
nuc records. -/
structure GeneRecord where
  gene : String
  nucs : List NucRecord
deriving DecidableEq

/-- The mutable state of the `ResistanceList.__init__` loop. -/
structure MatchState where
  resistance_list : List GeneRecord
  gene_record : GeneRecord
  nuc_record : NucRecord
deriving DecidableEq

/-- The state before the loop: empty result, `gene_record = ['xxxx']`,
placeholder `nuc_record`. -/
def initState : MatchState := ⟨[], ⟨"xxxx", []⟩, initNucRecord⟩

/-- The first statement of the `ResistanceList.__init__` loop body:
`if target.gene != gene_record[0]` — flush the pending gene record only when
`len(nuc_record) > 7`, then start a fresh gene record and nuc record. -/
def flushStep (st : MatchState) (target : IsolateMutation) : MatchState :=
  if target.gene ≠ st.gene_record.gene then
    { resistance_list :=
        if st.nuc_record.len > 7 then
          st.resistance_list ++
            [⟨st.gene_record.gene, st.gene_record.nucs ++ [st.nuc_record]⟩]
        else st.resistance_list,
      gene_record := ⟨target.gene, []⟩,
      nuc_record := mkNucRecord target }
  else st

/-- The second statement of the loop body:
`if target.nuchange != nuc_record[0]` — append the pending nuc record to the
gene record and start a fresh one. -/
def nucStep (st : MatchState) (target : IsolateMutation) : MatchState :=
  if target.nuchange ≠ st.nuc_record.head then
    { st with
      gene_record := ⟨st.gene_record.gene, st.gene_record.nucs ++ [st.nuc_record]⟩,
      nuc_record := mkNucRecord target }
  else st

/-- The last statement of the loop body: look up the drug resistances and
append the drug list to the current nuc record when the lookup succeeded. -/
def drugStep (references : List Mutation) (st : MatchState)
    (target : IsolateMutation) : MatchState :=
  let fd := find_drug_resistances references target.gene target.nuchange
  if fd.1 then
    { st with nuc_record := ⟨st.nuc_record.fields, st.nuc_record.drugLists ++ [fd.2]⟩ }
  else st

/-- One iteration of the `ResistanceList.__init__` loop body on `target`:
the three statements of the body in source order. -/
def stepTarget (references : List Mutation) (st : MatchState)
    (target : IsolateMutation) : MatchState :=
  drugStep references (nucStep (flushStep st target) target) target

/-- The whole `ResistanceList.__init__` loop over the sorted targets. -/
def runMatch (references : List Mutation) (targets : List IsolateMutation) :
    MatchState :=
  targets.foldl (stepTarget references) initState

/-- `ResistanceList.resistance_list` as a function of the reference table and
the (sorted) isolate annotation list. -/
def resistance_list (references : List Mutation)
    (targets : List IsolateMutation) : List GeneRecord :=
  (runMatch references targets).resistance_list

/-- Parse one comma-split data row of the reference table the way
`MutationList.__init__` reads it:
`Mutation(fields[1], fields[6], fields[7], fields[0], float(fields[22]),
float(fields[17]))`.  `pf` models Python `float()`; a missing index or a
failed conversion yields `none`. -/
def parseRow (pf : String → Option ℚ) (fields : List String) : Option Mutation := do
  let gene ← fields[1]?
  let nu ← fields[6]?
  let aa ← fields[7]?
  let drug ← fields[0]?
  let pvs ← fields[22]?
  let pv ← pf pvs
  let lrs ← fields[17]?
  let lr ← pf lrs
  some ⟨gene, nu, aa, drug, pv, lr⟩

/-- The accumulation loop of `MutationList.__init__` over the data rows (the
two header lines are already skipped).  A row that fails to parse aborts the
whole load, mirroring the uncaught `ValueError` / `IndexError`; a parsed row
is kept, and counted, only when its p-value is `< 0.05`. -/
def mutationLoadGo (pf : String → Option ℚ) :
    List (List String) → List Mutation → Nat → Except String (List Mutation × Nat)
  | [], acc, n => .ok (acc, n)
  | r :: rest, acc, n =>
      match parseRow pf r with
      | none => .error "MalformedRecord"
      | some gm =>
          if gm.pvalue < 0.05 then mutationLoadGo pf rest (acc ++ [gm]) (n + 1)
          else mutationLoadGo pf rest acc n

/-- `MutationList.__init__` on the data rows: the retained mutation list and
`item_count`, or the error that aborted the load. -/
def mutationListLoad (pf : String → Option ℚ) (rows : List (List String)) :
    Except String (List Mutation × Nat) :=
  mutationLoadGo pf rows [] 0

/-- The loop of `LowQuals.__init__` over the tab-split lines: keep
`[fields[0..4]]` for every line whose first field equals the sample name.
Only matching lines touch `fields[1..4]`, so only they can raise
`IndexError`. -/
def lowQualGo (sample : String) :
    List (List String) → List (List String) → Except String (List (List String))
  | [], acc => .ok acc
  | r :: rest, acc =>
      match r[0]? with
      | none => .error "IndexError"
      | some f0 =>
          if f0 = sample then
            match r[1]?, r[2]?, r[3]?, r[4]? with
            | some f1, some f2, some f3, some f4 =>
                lowQualGo sample rest (acc ++ [[f0, f1, f2, f3, f4]])
            | _, _, _, _ => .error "IndexError"
          else lowQualGo sample rest acc

/-- `LowQuals.low_quals` as a function of the sample name and the split rows
of `low_quals.txt`. -/
def lowQualsLoad (sample : String) (rows : List (List String)) :
    Except String (List (List String)) :=
  lowQualGo sample rows []

/-- The natural field-tuple sort key of an `IsolateMutation`: Python compares
namedtuples lexicographically field by field. -/
def IsolateMutation.key (t : IsolateMutation) :
    String ×ₗ String ×ₗ String ×ₗ String ×ₗ String ×ₗ String ×ₗ String ×ₗ String :=
  toLex (t.gene, toLex (t.nuchange, toLex (t.aachange, toLex (t.refpos,
    toLex (t.refnuc, toLex (t.altnuc, toLex (t.annot, t.codonpos)))))))

/-- The tuple order on isolate mutations used by Python `sorted`. -/
def keyLe (a b : IsolateMutation) : Prop := a.key ≤ b.key

instance : DecidableRel keyLe := fun a b =>
  inferInstanceAs (Decidable (a.key ≤ b.key))

/-- The tuple order as a Boolean comparator. -/
def keyLeB (a b : IsolateMutation) : Bool := decide (keyLe a b)

/-- `AnnotationList.annotation_list`: Python `sorted(self.mutations)`,
modelled as a merge sort by the natural field-tuple order. -/
def annotation_list (rows : List IsolateMutation) : List IsolateMutation :=
  rows.mergeSort keyLeB

/-! ### Concrete sample data used to exercise the theorems -/

/-- A one-row reference table: rpoB / c.761A>G graded for RIF with
likelihood ratio 12. -/
def sampleRefs : List Mutation :=
  [⟨"rpoB", "c.761A>G", "p.Asp327Gly", "RIF", 0, 12⟩]

/-- An observed mutation matching the reference row. -/
def tA : IsolateMutation :=
  ⟨"rpoB", "c.761A>G", "p.Asp327Gly", "761", "A", "G", "missense", "327"⟩

/-- A second observed mutation on a later gene, with no reference match. -/
def tB : IsolateMutation :=
  ⟨"rrs", "c.10C>T", "p.?", "10", "C", "T", "synonymous", "4"⟩

/-- The nuc record the matcher builds for `tA` (with its RIF drug call). -/
def sampleNuc : NucRecord :=
  ⟨["c.761A>G", "p.Asp327Gly", "761", "A", "G", "missense", "327"],
    [[("RIF", "High")]]⟩

/-- The gene group the matcher emits for `tA` on the inputs above. -/
def sampleGroup : GeneRecord := ⟨"rpoB", [sampleNuc]⟩

/-- The loop state after processing `tA`: one pending, matched nuc record. -/
def sampleState : MatchState := ⟨[], ⟨"rpoB", []⟩, sampleNuc⟩

/-- A concrete stand-in for Python `float()` on the strings the sample
reference rows use. -/
def cpf : String → Option ℚ := fun s =>
  if s = "p0" then some 0 else if s = "p1" then some 1
  else if s = "lr" then some 12 else none

/-- A 23-column reference row that parses and passes the p-value filter. -/
def goodRow : List String :=
  ["RIF", "rpoB", "x", "x", "x", "x", "c.761A>G", "p.Asp327Gly", "x", "x",
    "x", "x", "x", "x", "x", "x", "x", "lr", "x", "x", "x", "x", "p0"]

/-- A 23-column reference row that parses but fails the p-value filter. -/
def badPRow : List String :=
  ["INH", "katG", "x", "x", "x", "x", "c.944G>C", "p.Ser315Thr", "x", "x",
    "x", "x", "x", "x", "x", "x", "x", "lr", "x", "x", "x", "x", "p1"]

/-- A truncated reference row whose parse fails. -/
def badRow : List String := ["x"]

/-- The mutation parsed from `goodRow`. -/
def cM : Mutation := ⟨"rpoB", "c.761A>G", "p.Asp327Gly", "RIF", 0, 12⟩

/-- A sample low-quality table: one row for the sample, one for another. -/
def lqRows : List (List String) :=
  [["s1", "10", "A", "G", "q30", "extra"], ["s2", "11", "C", "T", "q10"]]

/-- The low-quality rows kept for sample `s1`. -/
def lqOut : List (List String) := [["s1", "10", "A", "G", "q30"]]

/-! ### Characterisation of `find_drug_resistances` -/

theorem drugScan_eq (tg tn : String) (l : List Mutation)
    (acc : List (String × String)) :
    drugScan tg tn l acc =
      acc ++ (l.filter (fun r => decide (r.gene = tg ∧ r.nuchange = tn))).map
        (fun r => (r.drug, confidence r.likelihood)) := by
  induction l generalizing acc with
  | nil => simp [drugScan]
  | cons r rest ih =>
    by_cases h : r.gene = tg ∧ r.nuchange = tn
    · rw [drugScan, if_pos h, ih]
      cases acc <;> simp [h]
    · rw [drugScan, if_neg h, ih]
      simp [h]

theorem find_drug_resistances_snd (references : List Mutation) (tg tn : String) :
    (find_drug_resistances references tg tn).2 =
      (references.filter (fun r => decide (r.gene = tg ∧ r.nuchange = tn))).map
        (fun r => (r.drug, confidence r.likelihood)) := by
  simp [find_drug_resistances, drugScan_eq]

theorem find_drug_resistances_fst (references : List Mutation) (tg tn : String) :
    (find_drug_resistances references tg tn).1 = true ↔
      (find_drug_resistances references tg tn).2 ≠ [] := by
  simp [find_drug_resistances, drugScan_eq, List.length_pos]

/-- C3: for every observed record and reference table, the per-record scan
produces exactly one `DrugCall` for every reference row whose
`(gene, nuc_change)` equals the observed record's, in reference-scan order:
the drug-call list is the map of the drug/confidence pair over the filtered
reference list. -/
theorem c3_all_matching_rows_contribute (references : List Mutation)
    (tg tn : String) :
    (find_drug_resistances references tg tn).2 =
      (references.filter (fun r => decide (r.gene = tg ∧ r.nuchange = tn))).map
        (fun r => (r.drug, confidence r.likelihood)) :=
  find_drug_resistances_snd references tg tn

/-- C4: the confidence tier is a pure total function of the likelihood ratio:
`≥ 10` yields `"High"`, `[5, 10)` yields `"Medium"`, anything else `"Low"`;
in particular `10 ↦ "High"`, `5 ↦ "Medium"`, `4.999 ↦ "Low"`. -/
theorem c4_confidence_tiers :
    (∀ lr : ℚ, confidence lr =
      if 10 ≤ lr then "High" else if 5 ≤ lr then "Medium" else "Low")
    ∧ confidence 10 = "High" ∧ confidence 5 = "Medium"
    ∧ confidence 4.999 = "Low" := by
  refine ⟨fun lr => ?_, by norm_num [confidence], by norm_num [confidence],
    by norm_num [confidence]⟩
  unfold confidence
  split_ifs <;> first | rfl | (exfalso; push_neg at *; simp_all; linarith)

/-! ### Reference table loader -/

theorem mutationLoadGo_ok (pf : String → Option ℚ) (rows : List (List String))
    (acc : List Mutation) (n : Nat) (res : List Mutation × Nat)
    (h : mutationLoadGo pf rows acc n = .ok res) :
    res.1 = acc ++ ((rows.filterMap (parseRow pf)).filter
      (fun m => decide (m.pvalue < 0.05)))
    ∧ res.2 = n + ((rows.filterMap (parseRow pf)).filter
      (fun m => decide (m.pvalue < 0.05))).length := by
  induction rows generalizing acc n with
  | nil =>
    rw [mutationLoadGo] at h
    obtain rfl : (acc, n) = res := by simpa using h
    simp
  | cons r rest ih =>
    rw [mutationLoadGo] at h
    split at h
    next hr => exact absurd h (by simp)
    next gm hr =>
      by_cases hp : gm.pvalue < 0.05
      · rw [if_pos hp] at h
        obtain ⟨h1, h2⟩ := ih _ _ h
        constructor
        · simp [List.filterMap_cons, hr, hp, h1]
        · simp [List.filterMap_cons, hr, hp, h2]; omega
      · rw [if_neg hp] at h
        obtain ⟨h1, h2⟩ := ih _ _ h
        constructor
        · simp [List.filterMap_cons, hr, hp, h1]
        · simp [List.filterMap_cons, hr, hp, h2]

theorem mutationLoadGo_err (pf : String → Option ℚ) (rows : List (List String))
    (acc : List Mutation) (n : Nat) (r : List String) (hr : r ∈ rows)
    (hbad : parseRow pf r = none) :
    mutationLoadGo pf rows acc n = .error "MalformedRecord" := by
  induction rows generalizing acc n with
  | nil => cases hr
  | cons x rest ih =>
    rw [mutationLoadGo]
    rcases List.mem_cons.mp hr with rfl | hr'
    · rw [hbad]
    · split
      next => rfl
      next gm hx =>
        by_cases hp : gm.pvalue < 0.05
        · rw [if_pos hp]; exact ih _ _ hr'
        · rw [if_neg hp]; exact ih _ _ hr'

/-- C5: when the reference-table load succeeds, the retained list is exactly
the parsed rows with `p_value < 0.05`, the size count is its length, and
every retained mutation has `p_value < 0.05` — rows with `p_value ≥ 0.05`
contribute nothing to the list or to the count. -/
theorem c5_pvalue_filter (pf : String → Option ℚ) (rows : List (List String))
    (res : List Mutation × Nat) (h : mutationListLoad pf rows = .ok res) :
    res.1 = (rows.filterMap (parseRow pf)).filter (fun m => decide (m.pvalue < 0.05))
    ∧ res.2 = res.1.length
    ∧ ∀ m ∈ res.1, m.pvalue < 0.05 := by
  obtain ⟨h1, h2⟩ := mutationLoadGo_ok pf rows [] 0 res h
  refine ⟨by simpa using h1, ?_, ?_⟩
  · rw [h2, h1]; simp
  · intro m hm
    rw [h1] at hm
    exact of_decide_eq_true (List.mem_filter.mp hm).2

/-- C9: if any data row of the reference table fails parsing (a missing
column or a failed numeric conversion), the whole load aborts with the
fatal error and no partially loaded reference set is ever produced. -/
theorem c9_all_or_nothing (pf : String → Option ℚ) (rows : List (List String))
    (h : ∃ r ∈ rows, parseRow pf r = none) :
    mutationListLoad pf rows = .error "MalformedRecord"
    ∧ ∀ res, mutationListLoad pf rows ≠ .ok res := by
  obtain ⟨r, hr, hbad⟩ := h
  have he := mutationLoadGo_err pf rows [] 0 r hr hbad
  exact ⟨he, fun res hok => by rw [mutationListLoad] at hok; rw [he] at hok; cases hok⟩

/-! ### Low-quality segment loader -/

theorem take_five_of_get? {r : List String} {f0 f1 f2 f3 f4 : String}
    (h0 : r[0]? = some f0) (h1 : r[1]? = some f1) (h2 : r[2]? = some f2)
    (h3 : r[3]? = some f3) (h4 : r[4]? = some f4) :
    r.take 5 = [f0, f1, f2, f3, f4] := by
  rcases r with _ | ⟨a, _ | ⟨b, _ | ⟨c, _ | ⟨d, _ | ⟨e, rest⟩⟩⟩⟩⟩ <;>
    simp_all [List.get?]

theorem lowQualGo_ok (sample : String) (rows acc out : List (List String))
    (h : lowQualGo sample rows acc = .ok out) :
    out = acc ++ (rows.filter (fun r => decide (r[0]? = some sample))).map
      (fun r => r.take 5) := by
  induction rows generalizing acc with
  | nil =>
    rw [lowQualGo] at h
    obtain rfl : acc = out := by simpa using h
    simp
  | cons r rest ih =>
    rw [lowQualGo] at h
    split at h
    next h0 => exact absurd h (by simp)
    next f0 h0 =>
      by_cases hs : f0 = sample
      · rw [if_pos hs] at h
        split at h
        next f1 f2 f3 f4 h1 h2 h3 h4 =>
          have := ih _ h
          subst hs
          simp [List.filter_cons, h0, this,
            take_five_of_get? h0 h1 h2 h3 h4]
        next => exact absurd h (by simp)
      · rw [if_neg hs] at h
        have := ih _ h
        have hne : ¬ r[0]? = some sample := by
          rw [h0]; simpa using hs
        simp [List.filter_cons, hne, this]

/-- C10: when the low-quality load succeeds, the delivered list consists of
exactly the rows whose first (sample-id) field equals the current sample id,
truncated to their first five fields, in file order; rows for other samples
are excluded. -/
theorem c10_low_quals_filter (sample : String) (rows out : List (List String))
    (h : lowQualsLoad sample rows = .ok out) :
    out = (rows.filter (fun r => decide (r[0]? = some sample))).map
      (fun r => r.take 5) := by
  simpa using lowQualGo_ok sample rows [] out h

/-! ### Basic facts about one loop iteration -/

theorem drugStep_resistance_list (references : List Mutation) (st : MatchState)
    (target : IsolateMutation) :
    (drugStep references st target).resistance_list = st.resistance_list := by
  dsimp only [drugStep]; split <;> rfl

theorem drugStep_gene_record (references : List Mutation) (st : MatchState)
    (target : IsolateMutation) :
    (drugStep references st target).gene_record = st.gene_record := by
  dsimp only [drugStep]; split <;> rfl

theorem drugStep_fields (references : List Mutation) (st : MatchState)
    (target : IsolateMutation) :
    (drugStep references st target).nuc_record.fields = st.nuc_record.fields := by
  dsimp only [drugStep]; split <;> rfl

theorem drugStep_head (references : List Mutation) (st : MatchState)
    (target : IsolateMutation) :
    (drugStep references st target).nuc_record.head = st.nuc_record.head := by
  rw [NucRecord.head, NucRecord.head, drugStep_fields]

theorem nucStep_resistance_list (st : MatchState) (target : IsolateMutation) :
    (nucStep st target).resistance_list = st.resistance_list := by
  unfold nucStep; split <;> rfl

theorem nucStep_gene (st : MatchState) (target : IsolateMutation) :
    (nucStep st target).gene_record.gene = st.gene_record.gene := by
  unfold nucStep; split <;> rfl

theorem stepTarget_resistance_list (references : List Mutation) (st : MatchState)
    (target : IsolateMutation) :
    (stepTarget references st target).resistance_list =
      (flushStep st target).resistance_list := by
  rw [stepTarget, drugStep_resistance_list, nucStep_resistance_list]

theorem flushStep_of_eq (st : MatchState) (target : IsolateMutation)
    (h : target.gene = st.gene_record.gene) : flushStep st target = st := by
  unfold flushStep; rw [if_neg]; simp [h]

theorem flushStep_rl_of_flush (st : MatchState) (target : IsolateMutation)
    (h : target.gene ≠ st.gene_record.gene) (hlen : st.nuc_record.len > 7) :
    (flushStep st target).resistance_list =
      st.resistance_list ++
        [⟨st.gene_record.gene, st.gene_record.nucs ++ [st.nuc_record]⟩] := by
  unfold flushStep; rw [if_pos h]; simp [hlen]

theorem flushStep_rl_of_skip (st : MatchState) (target : IsolateMutation)
    (h : target.gene ≠ st.gene_record.gene) (hlen : ¬ st.nuc_record.len > 7) :
    (flushStep st target).resistance_list = st.resistance_list := by
  unfold flushStep; rw [if_pos h]; simp [hlen]

theorem flushStep_gene (st : MatchState) (target : IsolateMutation) :
    (flushStep st target).gene_record.gene = target.gene := by
  unfold flushStep; split
  · rfl
  · next h => rw [not_not] at h; exact h.symm

theorem stepTarget_gene (references : List Mutation) (st : MatchState)
    (target : IsolateMutation) :
    (stepTarget references st target).gene_record.gene = target.gene := by
  rw [stepTarget, drugStep_gene_record, nucStep_gene, flushStep_gene]

theorem nucStep_head (st : MatchState) (target : IsolateMutation) :
    (nucStep st target).nuc_record.head = target.nuchange := by
  unfold nucStep; split
  · rfl
  · next h => rw [not_not] at h; exact h.symm

theorem stepTarget_head (references : List Mutation) (st : MatchState)
    (target : IsolateMutation) :
    (stepTarget references st target).nuc_record.head = target.nuchange := by
  rw [stepTarget, drugStep_head, nucStep_head]

theorem flushStep_eq_flush (st : MatchState) (target : IsolateMutation)
    (h : target.gene ≠ st.gene_record.gene) (hlen : st.nuc_record.len > 7) :
    flushStep st target =
      ⟨st.resistance_list ++
          [⟨st.gene_record.gene, st.gene_record.nucs ++ [st.nuc_record]⟩],
        ⟨target.gene, []⟩, mkNucRecord target⟩ := by
  unfold flushStep; rw [if_pos h, if_pos hlen]

theorem flushStep_eq_skip (st : MatchState) (target : IsolateMutation)
    (h : target.gene ≠ st.gene_record.gene) (hlen : ¬ st.nuc_record.len > 7) :
    flushStep st target =
      ⟨st.resistance_list, ⟨target.gene, []⟩, mkNucRecord target⟩ := by
  unfold flushStep; rw [if_pos h, if_neg hlen]

theorem nucStep_eq_app (st : MatchState) (target : IsolateMutation)
    (h : target.nuchange ≠ st.nuc_record.head) :
    nucStep st target =
      ⟨st.resistance_list,
        ⟨st.gene_record.gene, st.gene_record.nucs ++ [st.nuc_record]⟩,
        mkNucRecord target⟩ := by
  unfold nucStep; rw [if_pos h]

theorem nucStep_eq_skip (st : MatchState) (target : IsolateMutation)
    (h : ¬ target.nuchange ≠ st.nuc_record.head) : nucStep st target = st := by
  unfold nucStep; rw [if_neg h]

theorem drugStep_eq_found (references : List Mutation) (st : MatchState)
    (target : IsolateMutation)
    (h : (find_drug_resistances references target.gene target.nuchange).1 = true) :
    drugStep references st target =
      ⟨st.resistance_list, st.gene_record,
        ⟨st.nuc_record.fields, st.nuc_record.drugLists ++
          [(find_drug_resistances references target.gene target.nuchange).2]⟩⟩ := by
  dsimp only [drugStep]; rw [if_pos h]

theorem drugStep_eq_miss (references : List Mutation) (st : MatchState)
    (target : IsolateMutation)
    (h : ¬ (find_drug_resistances references target.gene target.nuchange).1 = true) :
    drugStep references st target = st := by
  dsimp only [drugStep]; rw [if_neg h]

/-- After the very first loop iteration (whose target gene differs from the
placeholder), the placeholder gene record and nuc record are discarded
without being flushed: only the drug lookup of the first target remains. -/
theorem first_step_state (references : List Mutation) (t : IsolateMutation)
    (hx : t.gene ≠ "xxxx") :
    stepTarget references initState t =
      drugStep references ⟨[], ⟨t.gene, []⟩, mkNucRecord t⟩ t := by
  rw [stepTarget, flushStep_eq_skip initState t hx (by decide),
    nucStep_eq_skip _ _ (by simp [mkNucRecord, NucRecord.head])]
  rfl

/-! ### Shape of the emitted nuc records -/

/-- Well-formedness of a nuc record as the loop maintains it after the first
real target: exactly the seven base string fields, and every attached
drug-call list nonempty (an empty lookup result is never attached — a
missing match leaves the drug-call slot absent rather than empty). -/
def GoodNR (nr : NucRecord) : Prop :=
  nr.fields.length = 7 ∧ ∀ dl ∈ nr.drugLists, dl ≠ []

/-- `GoodNR` for every nuc record reachable from the state. -/
def GoodState (st : MatchState) : Prop :=
  (∀ gr ∈ st.resistance_list, ∀ nr ∈ gr.nucs, GoodNR nr)
  ∧ (∀ nr ∈ st.gene_record.nucs, GoodNR nr)
  ∧ GoodNR st.nuc_record

theorem goodNR_mk (t : IsolateMutation) : GoodNR (mkNucRecord t) := by
  constructor
  · rfl
  · intro dl hdl; simp [mkNucRecord] at hdl

theorem flushStep_good (st : MatchState) (target : IsolateMutation)
    (h : GoodState st) : GoodState (flushStep st target) := by
  obtain ⟨h1, h2, h3⟩ := h
  by_cases hg : target.gene = st.gene_record.gene
  · rw [flushStep_of_eq st target hg]; exact ⟨h1, h2, h3⟩
  · by_cases hlen : st.nuc_record.len > 7
    · rw [flushStep_eq_flush st target hg hlen]
      refine ⟨?_, by simp, goodNR_mk target⟩
      intro gr hgr
      rcases List.mem_append.mp hgr with hmem | hmem
      · exact h1 gr hmem
      · obtain rfl : gr = ⟨st.gene_record.gene,
            st.gene_record.nucs ++ [st.nuc_record]⟩ := by simpa using hmem
        intro nr hnr
        rcases List.mem_append.mp hnr with hm | hm
        · exact h2 nr hm
        · obtain rfl : nr = st.nuc_record := by simpa using hm
          exact h3
    · rw [flushStep_eq_skip st target hg hlen]
      exact ⟨h1, by simp, goodNR_mk target⟩

theorem nucStep_good (st : MatchState) (target : IsolateMutation)
    (h : GoodState st) : GoodState (nucStep st target) := by
  obtain ⟨h1, h2, h3⟩ := h
  by_cases hn : target.nuchange ≠ st.nuc_record.head
  · rw [nucStep_eq_app st target hn]
    refine ⟨h1, ?_, goodNR_mk target⟩
    intro nr hnr
    rcases List.mem_append.mp hnr with hm | hm
    · exact h2 nr hm
    · obtain rfl : nr = st.nuc_record := by simpa using hm
      exact h3
  · rw [nucStep_eq_skip st target hn]
    exact ⟨h1, h2, h3⟩

theorem drugStep_good (references : List Mutation) (st : MatchState)
    (target : IsolateMutation) (h : GoodState st) :
    GoodState (drugStep references st target) := by
  obtain ⟨h1, h2, h3⟩ := h
  by_cases hfd : (find_drug_resistances references target.gene target.nuchange).1 = true
  · rw [drugStep_eq_found references st target hfd]
    refine ⟨h1, h2, h3.1, ?_⟩
    intro dl hdl
    rcases List.mem_append.mp hdl with hm | hm
    · exact h3.2 dl hm
    · obtain rfl : dl =
          (find_drug_resistances references target.gene target.nuchange).2 := by
        simpa using hm
      exact (find_drug_resistances_fst references target.gene target.nuchange).mp hfd
  · rw [drugStep_eq_miss references st target hfd]
    exact ⟨h1, h2, h3⟩

theorem stepTarget_good (references : List Mutation) (st : MatchState)
    (target : IsolateMutation) (h : GoodState st) :
    GoodState (stepTarget references st target) :=
  drugStep_good references _ target (nucStep_good _ target (flushStep_good st target h))

theorem foldl_good (references : List Mutation) :
    ∀ (ts : List IsolateMutation) (st : MatchState), GoodState st →
      GoodState (ts.foldl (stepTarget references) st) := by
  intro ts
  induction ts with
  | nil => intro st h; exact h
  | cons t ts ih => intro st h; exact ih _ (stepTarget_good references st t h)

/-! ### The flushed group always ends in a matched nuc record -/

/-- Invariant behind the flush condition `len(nuc_record) > 7`: the in-flight
nuc record never has more than seven string fields, so a flush can only
happen when at least one drug list is attached to the pending nuc record;
hence the last nuc record of every emitted group carries a drug list. -/
theorem foldl_last_nuc_matched (references : List Mutation) :
    ∀ (ts : List IsolateMutation) (st : MatchState),
      st.nuc_record.fields.length ≤ 7 →
      (∀ gr ∈ st.resistance_list,
        ∃ nr, gr.nucs.getLast? = some nr ∧ nr.drugLists ≠ []) →
      ∀ gr ∈ (ts.foldl (stepTarget references) st).resistance_list,
        ∃ nr, gr.nucs.getLast? = some nr ∧ nr.drugLists ≠ [] := by
  intro ts
  induction ts with
  | nil => intro st _ hrl; simpa using hrl
  | cons t ts ih =>
    intro st hfield hrl
    refine ih (stepTarget references st t) ?_ ?_
    · rw [stepTarget, drugStep_fields]
      by_cases hn : t.nuchange ≠ (flushStep st t).nuc_record.head
      · rw [nucStep_eq_app _ t hn]; rfl
      · rw [nucStep_eq_skip _ t hn]
        by_cases hg : t.gene = st.gene_record.gene
        · rw [flushStep_of_eq st t hg]; exact hfield
        · by_cases hlen : st.nuc_record.len > 7
          · rw [flushStep_eq_flush st t hg hlen]; rfl
          · rw [flushStep_eq_skip st t hg hlen]; rfl
    · intro gr hgr
      rw [stepTarget_resistance_list] at hgr
      by_cases hg : t.gene = st.gene_record.gene
      · rw [flushStep_of_eq st t hg] at hgr
        exact hrl gr hgr
      · by_cases hlen : st.nuc_record.len > 7
        · rw [flushStep_rl_of_flush st t hg hlen] at hgr
          rcases List.mem_append.mp hgr with hm | hm
          · exact hrl gr hm
          · obtain rfl : gr = ⟨st.gene_record.gene,
                st.gene_record.nucs ++ [st.nuc_record]⟩ := by simpa using hm
            refine ⟨st.nuc_record, List.getLast?_concat _, ?_⟩
            have hd : 0 < st.nuc_record.drugLists.length := by
              rw [NucRecord.len] at hlen
              omega
            intro hnil
            rw [hnil] at hd
            simp at hd
        · rw [flushStep_rl_of_skip st t hg hlen] at hgr
          exact hrl gr hgr

/-! ### Genes of the emitted groups -/

/-- A run of the loop extends the result list only at gene transitions, each
time by the gene pending at that moment, so the genes of the final result
form a sublist of the already-flushed genes followed by the de-duplicated
gene sequence of the pending group and the remaining targets — without its
last entry, since the group pending when the loop ends is never flushed. -/
theorem foldl_genes_sublist (references : List Mutation) :
    ∀ (ts : List IsolateMutation) (st : MatchState),
      ((ts.foldl (stepTarget references) st).resistance_list.map GeneRecord.gene).Sublist
        (st.resistance_list.map GeneRecord.gene ++
          ((ts.map IsolateMutation.gene).destutter'
            (· ≠ ·) st.gene_record.gene).dropLast) := by
  intro ts
  induction ts with
  | nil => intro st; simp [List.destutter'_nil]
  | cons t ts ih =>
    intro st
    have base := ih (stepTarget references st t)
    rw [stepTarget_gene] at base
    refine base.trans ?_
    by_cases hg : t.gene = st.gene_record.gene
    · have hnn : ¬ (st.gene_record.gene ≠ t.gene) := by simp [hg]
      rw [stepTarget_resistance_list, flushStep_of_eq st t hg, List.map_cons,
        List.destutter'_cons_neg _ hnn, hg]
    · have hne : st.gene_record.gene ≠ t.gene := Ne.symm hg
      rw [List.map_cons, List.destutter'_cons_pos _ hne]
      obtain ⟨d, D, hD⟩ : ∃ d D,
          (ts.map IsolateMutation.gene).destutter' (· ≠ ·) t.gene = d :: D := by
        rcases hcase : (ts.map IsolateMutation.gene).destutter' (· ≠ ·) t.gene with
          _ | ⟨d, D⟩
        · exact absurd hcase (List.destutter'_ne_nil _ _)
        · exact ⟨d, D, rfl⟩
      rw [hD, List.dropLast_cons₂]
      by_cases hlen : st.nuc_record.len > 7
      · rw [stepTarget_resistance_list, flushStep_rl_of_flush st t hg hlen,
          List.map_append, List.append_assoc]
        simp
      · rw [stepTarget_resistance_list, flushStep_rl_of_skip st t hg hlen]
        exact List.Sublist.append_left (List.sublist_cons_self _ _) _

/-- If no target carries the placeholder gene name `"xxxx"`, no emitted
group does either: the initial placeholder group can never be flushed
because its placeholder nuc record has length 5. -/
theorem foldl_genes_ne_xxxx (references : List Mutation) :
    ∀ (ts : List IsolateMutation) (st : MatchState),
      (∀ t ∈ ts, t.gene ≠ "xxxx") →
      (∀ gr ∈ st.resistance_list, gr.gene ≠ "xxxx") →
      (st.gene_record.gene = "xxxx" → ¬ st.nuc_record.len > 7) →
      ∀ gr ∈ (ts.foldl (stepTarget references) st).resistance_list,
        gr.gene ≠ "xxxx" := by
  intro ts
  induction ts with
  | nil => intro st _ hrl _; simpa using hrl
  | cons t ts ih =>
    intro st hts hrl hpend
    refine ih (stepTarget references st t) (fun u hu => hts u (List.mem_cons_of_mem _ hu))
      ?_ ?_
    · intro gr hgr
      rw [stepTarget_resistance_list] at hgr
      by_cases hg : t.gene = st.gene_record.gene
      · rw [flushStep_of_eq st t hg] at hgr
        exact hrl gr hgr
      · by_cases hlen : st.nuc_record.len > 7
        · rw [flushStep_rl_of_flush st t hg hlen] at hgr
          rcases List.mem_append.mp hgr with h | h
          · exact hrl gr h
          · obtain rfl : gr = ⟨st.gene_record.gene, st.gene_record.nucs ++
                [st.nuc_record]⟩ := by simpa using h
            intro hx
            exact hpend hx hlen
        · rw [flushStep_rl_of_skip st t hg hlen] at hgr
          exact hrl gr hgr
    · rw [stepTarget_gene]
      intro hx
      exact absurd hx (hts t (List.mem_cons_self _ _))

/-! ### Consequences of the tuple order -/

theorem keyLe_gene_le {a b : IsolateMutation} (h : keyLe a b) :
    a.gene ≤ b.gene := by
  rcases (Prod.Lex.le_iff _ _).mp h with hlt | ⟨heq, _⟩
  · exact le_of_lt hlt
  · exact le_of_eq heq

theorem keyLe_nuchange_le {a b : IsolateMutation} (h : keyLe a b)
    (hg : a.gene = b.gene) : a.nuchange ≤ b.nuchange := by
  rcases (Prod.Lex.le_iff _ _).mp h with hlt | ⟨heq, hrest⟩
  · rw [hg] at hlt; exact absurd hlt (lt_irrefl _)
  · rcases (Prod.Lex.le_iff _ _).mp hrest with hlt2 | ⟨heq2, _⟩
    · exact le_of_lt hlt2
    · exact le_of_eq heq2

theorem key_inj {a b : IsolateMutation} (h : a.key = b.key) : a = b := by
  rw [IsolateMutation.key, IsolateMutation.key] at h
  simp only [toLex_inj, Prod.mk.injEq] at h
  obtain ⟨h1, h2, h3, h4, h5, h6, h7, h8⟩ := h
  cases a; cases b
  simp_all

theorem keyLe_antisymm {a b : IsolateMutation} (h1 : keyLe a b)
    (h2 : keyLe b a) : a = b :=
  key_inj (le_antisymm h1 h2)

instance : IsAntisymm IsolateMutation keyLe := ⟨fun _ _ => keyLe_antisymm⟩

/-! ### Order of the nuc records inside an emitted group -/

/-- The nuchange heads of the nuc records of a gene record. -/
def headsOf (gr : GeneRecord) : List String := gr.nucs.map NucRecord.head

theorem chain'_lt_concat₂ {l : List String} {a b : String}
    (h : List.Chain' (· < ·) (l ++ [a])) (hab : a < b) :
    List.Chain' (· < ·) (l ++ [a, b]) := by
  have hsplit : l ++ [a, b] = (l ++ [a]) ++ [b] := by simp
  rw [hsplit]
  refine List.chain'_append.mpr ⟨h, by simp, ?_⟩
  intro x hx y hy
  rw [List.getLast?_concat] at hx
  obtain rfl : a = x := by simpa using hx
  obtain rfl : b = y := by simpa using hy
  exact hab

theorem drugStep_headsOf (references : List Mutation) (st : MatchState)
    (target : IsolateMutation) :
    headsOf (drugStep references st target).gene_record =
      headsOf st.gene_record := by
  rw [drugStep_gene_record]

/-- Inside every emitted group the nuc-record heads are strictly increasing:
the loop walks the sorted targets, so within a gene block a new nuc record
is opened exactly when the nuchange strictly grows, and the pending heads
stay a strictly increasing chain. -/
theorem foldl_heads_sorted (references : List Mutation) :
    ∀ (ts : List IsolateMutation) (st : MatchState) (lt : IsolateMutation),
      List.Chain' keyLe (lt :: ts) →
      st.gene_record.gene = lt.gene →
      st.nuc_record.head = lt.nuchange →
      List.Chain' (· < ·) (headsOf st.gene_record ++ [st.nuc_record.head]) →
      (∀ gr ∈ st.resistance_list, List.Chain' (· < ·) (headsOf gr)) →
      ∀ gr ∈ (ts.foldl (stepTarget references) st).resistance_list,
        List.Chain' (· < ·) (headsOf gr) := by
  intro ts
  induction ts with
  | nil => intro st lt _ _ _ _ hrl; simpa using hrl
  | cons t ts ih =>
    intro st lt hchain hgene hhead hpend hrl
    have hlt : keyLe lt t := (List.chain'_cons.mp hchain).1
    have hchain' : List.Chain' keyLe (t :: ts) := (List.chain'_cons.mp hchain).2
    refine ih (stepTarget references st t) t hchain'
      (stepTarget_gene references st t) (stepTarget_head references st t) ?_ ?_
    · -- the pending chain of the new state
      rw [stepTarget, drugStep_headsOf, drugStep_head]
      by_cases hg : t.gene = st.gene_record.gene
      · rw [flushStep_of_eq st t hg]
        by_cases hn : t.nuchange ≠ st.nuc_record.head
        · have hlth : st.nuc_record.head < t.nuchange := by
            have hle : lt.nuchange ≤ t.nuchange :=
              keyLe_nuchange_le hlt (hg.trans hgene).symm
            rw [hhead]
            exact lt_of_le_of_ne hle (fun he => hn ((hhead.trans he).symm))
          rw [nucStep_eq_app st t hn]
          have hgoal := chain'_lt_concat₂ (l := headsOf st.gene_record)
            hpend hlth
          simpa [headsOf, mkNucRecord, NucRecord.head] using hgoal
        · rw [nucStep_eq_skip st t hn]
          exact hpend
      · -- new gene: the pending chain restarts with the single new head
        have hg' : t.gene ≠ st.gene_record.gene := hg
        have hrw : (flushStep st t).gene_record = ⟨t.gene, []⟩ ∧
            (flushStep st t).nuc_record = mkNucRecord t := by
          by_cases hlen : st.nuc_record.len > 7
          · rw [flushStep_eq_flush st t hg' hlen]; exact ⟨rfl, rfl⟩
          · rw [flushStep_eq_skip st t hg' hlen]; exact ⟨rfl, rfl⟩
        have hns : nucStep (flushStep st t) t = flushStep st t := by
          apply nucStep_eq_skip
          rw [hrw.2]
          simp [mkNucRecord, NucRecord.head]
        rw [hns, hrw.1, hrw.2]
        simp [headsOf]
    · -- the flushed groups of the new state
      intro gr hgr
      rw [stepTarget_resistance_list] at hgr
      by_cases hg : t.gene = st.gene_record.gene
      · rw [flushStep_of_eq st t hg] at hgr
        exact hrl gr hgr
      · by_cases hlen : st.nuc_record.len > 7
        · rw [flushStep_rl_of_flush st t hg hlen] at hgr
          rcases List.mem_append.mp hgr with hm | hm
          · exact hrl gr hm
          · obtain rfl : gr = ⟨st.gene_record.gene,
                st.gene_record.nucs ++ [st.nuc_record]⟩ := by simpa using hm
            simpa [headsOf] using hpend
        · rw [flushStep_rl_of_skip st t hg hlen] at hgr
          exact hrl gr hgr

/-! ### The pending last gene is never flushed -/

theorem destutter'_getLast?_eq (l : List String) :
    ∀ a : String,
      (l.destutter' (· ≠ ·) a).getLast? = (a :: l).getLast? := by
  induction l with
  | nil => intro a; rfl
  | cons b l ih =>
    intro a
    by_cases h : a ≠ b
    · rw [List.destutter'_cons_pos _ h]
      obtain ⟨c, m, hcm⟩ := List.exists_cons_of_ne_nil
        (List.destutter'_ne_nil l (· ≠ ·) (a := b))
      rw [hcm, List.getLast?_cons_cons, ← hcm, ih b, List.getLast?_cons_cons]
    · rw [List.destutter'_cons_neg _ h, ih a, List.getLast?_cons_cons]
      rw [not_not] at h
      rw [h]

theorem chain'_lt_of_ne_le {l : List String}
    (h1 : l.Chain' (· ≠ ·)) (h2 : l.Chain' (· ≤ ·)) : l.Chain' (· < ·) := by
  induction l with
  | nil => simp
  | cons a l ih =>
    cases l with
    | nil => simp
    | cons b m =>
      rw [List.chain'_cons] at h1 h2 ⊢
      exact ⟨lt_of_le_of_ne h2.1 h1.1, ih h1.2 h2.2⟩

theorem genes_chain_le {targets : List IsolateMutation}
    (h : List.Chain' keyLe targets) :
    (targets.map IsolateMutation.gene).Chain' (· ≤ ·) :=
  List.chain'_map_of_chain' _ (fun _ _ hab => keyLe_gene_le hab) h

theorem sublist_of_cons_of_not_mem {l m : List String} {a : String}
    (h : l.Sublist (a :: m)) (ha : a ∉ l) : l.Sublist m := by
  rcases List.sublist_cons_iff.mp h with h' | ⟨r, rfl, _⟩
  · exact h'
  · exact absurd (List.mem_cons_self a r) ha

/-- The strictly increasing form of the de-duplicated gene sequence of a
sorted target list. -/
theorem destutter'_genes_pairwise_lt {g : String} {gs : List String}
    (hchain : List.Chain' (· ≤ ·) (g :: gs)) :
    (gs.destutter' (· ≠ ·) g).Pairwise (· < ·) := by
  have hne : (gs.destutter' (· ≠ ·) g).Chain' (· ≠ ·) :=
    List.destutter'_is_chain' gs _ g
  have hsub : (gs.destutter' (· ≠ ·) g).Sublist (g :: gs) :=
    List.destutter'_sublist gs _ g
  have hle : (gs.destutter' (· ≠ ·) g).Chain' (· ≤ ·) :=
    (List.Pairwise.sublist hsub (List.chain'_iff_pairwise.mp hchain)).chain'
  exact List.chain'_iff_pairwise.mp (chain'_lt_of_ne_le hne hle)

theorem initState_resistance_list : initState.resistance_list = [] := rfl

theorem initState_gene : initState.gene_record.gene = "xxxx" := rfl

/-! ### The matcher claims -/

/-- C1 (amended): at a gene transition, the pending gene group is appended to
the output iff the pending nuc record's Python length exceeds 7, i.e. iff it
has accumulated at least one drug-call list beyond its seven base fields;
consequently the last nuc record of every emitted group carries a drug-call
list, and a gene group whose final (e.g. only) observed nuc change has no
reference match is dropped — not every emitted group has more than one
nuc-change entry. -/
theorem c1_flush_needs_matched_nuc (references : List Mutation) :
    (∀ (st : MatchState) (t : IsolateMutation), t.gene ≠ st.gene_record.gene →
      (stepTarget references st t).resistance_list =
        if st.nuc_record.len > 7 then
          st.resistance_list ++
            [⟨st.gene_record.gene, st.gene_record.nucs ++ [st.nuc_record]⟩]
        else st.resistance_list)
    ∧ ∀ (targets : List IsolateMutation),
        ∀ gr ∈ resistance_list references targets,
          ∃ nr, gr.nucs.getLast? = some nr ∧ nr.drugLists ≠ [] := by
  constructor
  · intro st t h
    rw [stepTarget_resistance_list]
    by_cases hlen : st.nuc_record.len > 7
    · rw [flushStep_rl_of_flush st t h hlen, if_pos hlen]
    · rw [flushStep_rl_of_skip st t h hlen, if_neg hlen]
  · intro targets gr hgr
    rw [resistance_list, runMatch] at hgr
    exact foldl_last_nuc_matched references targets initState (by decide)
      (by simp [initState_resistance_list]) gr hgr

/-- C2 (amended): every nuc record of every emitted group keeps exactly its
seven base string fields, and every drug-call list attached to it is
nonempty: an observed mutation with zero reference matches gets no
drug-call element at all — the drug-call slot is absent, not
present-and-empty (and, per the C2 counterexample, the whole group can even
be dropped). -/
theorem c2_no_drug_slot_when_unmatched (references : List Mutation)
    (targets : List IsolateMutation) (hx : ∀ t ∈ targets, t.gene ≠ "xxxx") :
    ∀ gr ∈ resistance_list references targets, ∀ nr ∈ gr.nucs,
      nr.fields.length = 7 ∧ ∀ dl ∈ nr.drugLists, dl ≠ [] := by
  cases targets with
  | nil =>
    intro gr hgr
    rw [resistance_list, runMatch] at hgr
    simp [initState] at hgr
  | cons t ts =>
    intro gr hgr
    rw [resistance_list, runMatch, List.foldl_cons] at hgr
    have hst : GoodState (stepTarget references initState t) := by
      rw [first_step_state references t (hx t (List.mem_cons_self t ts))]
      exact drugStep_good references _ t ⟨by simp, by simp, goodNR_mk t⟩
    exact (foldl_good references ts _ hst).1 gr hgr

/-- C6: for a sorted target list with real gene names, the matcher's output
preserves the input order of first appearance of each gene — the emitted
genes form a sublist of the de-duplicated input gene sequence — and inside
every emitted group the nuc records are strictly increasing in nuchange,
the isolate table's sorted order. -/
theorem c6_order_preservation (references : List Mutation)
    (targets : List IsolateMutation)
    (hsort : List.Chain' keyLe targets)
    (hx : ∀ t ∈ targets, t.gene ≠ "xxxx") :
    ((resistance_list references targets).map GeneRecord.gene).Sublist
      ((targets.map IsolateMutation.gene).destutter (· ≠ ·))
    ∧ ∀ gr ∈ resistance_list references targets,
        (gr.nucs.map NucRecord.head).Pairwise (· < ·) := by
  constructor
  · cases targets with
    | nil =>
      rw [resistance_list, runMatch]
      simp [initState]
    | cons t ts =>
      have hsub := foldl_genes_sublist references (t :: ts) initState
      rw [initState_resistance_list, initState_gene, List.map_nil,
        List.nil_append, List.map_cons] at hsub
      have hxi : "xxxx" ≠ t.gene := Ne.symm (hx t (List.mem_cons_self t ts))
      rw [List.destutter'_cons_pos _ hxi] at hsub
      obtain ⟨e, m, hE⟩ := List.exists_cons_of_ne_nil
        (List.destutter'_ne_nil (ts.map IsolateMutation.gene) (· ≠ ·) (a := t.gene))
      rw [hE, List.dropLast_cons₂] at hsub
      have hnx := foldl_genes_ne_xxxx references (t :: ts) initState hx
        (by simp [initState_resistance_list]) (by intro _; decide)
      have hxm : "xxxx" ∉ ((t :: ts).foldl
          (stepTarget references) initState).resistance_list.map
            GeneRecord.gene := by
        intro hm
        obtain ⟨gr', hgr', hgene'⟩ := List.mem_map.mp hm
        exact hnx gr' hgr' hgene'
      have hsub2 := sublist_of_cons_of_not_mem hsub hxm
      rw [resistance_list, runMatch]
      refine hsub2.trans ?_
      rw [List.map_cons, List.destutter_cons', hE]
      exact List.dropLast_sublist _
  · cases targets with
    | nil =>
      intro gr hgr
      rw [resistance_list, runMatch] at hgr
      simp [initState] at hgr
    | cons t ts =>
      intro gr hgr
      rw [resistance_list, runMatch, List.foldl_cons] at hgr
      have hxt : t.gene ≠ "xxxx" := hx t (List.mem_cons_self t ts)
      have hpend : List.Chain' (· < ·)
          (headsOf (stepTarget references initState t).gene_record ++
            [(stepTarget references initState t).nuc_record.head]) := by
        rw [first_step_state references t hxt, drugStep_headsOf, drugStep_head]
        simp [headsOf]
      have hrl0 : ∀ gr' ∈ (stepTarget references initState t).resistance_list,
          List.Chain' (· < ·) (headsOf gr') := by
        rw [first_step_state references t hxt, drugStep_resistance_list]
        intro gr' hgr'
        simp at hgr'
      have h2 := foldl_heads_sorted references ts
        (stepTarget references initState t) t hsort
        (stepTarget_gene references initState t)
        (stepTarget_head references initState t) hpend hrl0 gr hgr
      have h3 : List.Chain' (· < ·) (gr.nucs.map NucRecord.head) := by
        simpa [headsOf] using h2
      exact List.chain'_iff_pairwise.mp h3

/-- C7: for every nonempty sorted target list with real gene names, the gene
group opened for the last distinct gene is never appended to the output: a
flush happens only when a later target carries a different gene, and no
flush happens after the loop ends, so no emitted group carries the gene of
the last target. -/
theorem c7_last_gene_absent (references : List Mutation)
    (front : List IsolateMutation) (tlast : IsolateMutation)
    (hsort : List.Chain' keyLe (front ++ [tlast]))
    (hx : ∀ t ∈ front ++ [tlast], t.gene ≠ "xxxx") :
    ∀ gr ∈ resistance_list references (front ++ [tlast]),
      gr.gene ≠ tlast.gene := by
  intro gr hgr heq
  rw [resistance_list, runMatch] at hgr
  have hsub := foldl_genes_sublist references (front ++ [tlast]) initState
  rw [initState_resistance_list, initState_gene, List.map_nil,
    List.nil_append] at hsub
  obtain ⟨g1, gs, hg1⟩ : ∃ g1 gs,
      (front ++ [tlast]).map IsolateMutation.gene = g1 :: gs := by
    cases front with
    | nil => exact ⟨tlast.gene, [], by simp⟩
    | cons f fr => exact ⟨f.gene, (fr ++ [tlast]).map IsolateMutation.gene, by simp⟩
  have hg1mem : g1 ∈ (front ++ [tlast]).map IsolateMutation.gene := by
    rw [hg1]; exact List.mem_cons_self _ _
  have hg1x : "xxxx" ≠ g1 := by
    obtain ⟨u, hu, hug⟩ := List.mem_map.mp hg1mem
    exact fun hc => (hx u hu) (hug.trans hc.symm)
  rw [hg1, List.destutter'_cons_pos _ hg1x] at hsub
  obtain ⟨e, m, hE⟩ := List.exists_cons_of_ne_nil
    (List.destutter'_ne_nil gs (· ≠ ·) (a := g1))
  rw [hE, List.dropLast_cons₂] at hsub
  have hnx := foldl_genes_ne_xxxx references (front ++ [tlast]) initState hx
    (by simp [initState_resistance_list]) (by intro _; decide)
  have hxm : "xxxx" ∉ ((front ++ [tlast]).foldl
      (stepTarget references) initState).resistance_list.map GeneRecord.gene := by
    intro hm
    obtain ⟨gr', hgr', hgene'⟩ := List.mem_map.mp hm
    exact hnx gr' hgr' hgene'
  have hsub2 := sublist_of_cons_of_not_mem hsub hxm
  have hmem1 : gr.gene ∈ ((front ++ [tlast]).foldl
      (stepTarget references) initState).resistance_list.map GeneRecord.gene :=
    List.mem_map_of_mem _ hgr
  have hmem2 : tlast.gene ∈ (e :: m).dropLast := by
    rw [← heq]
    exact hsub2.subset hmem1
  have hgl : (gs.destutter' (· ≠ ·) g1).getLast? = some tlast.gene := by
    rw [destutter'_getLast?_eq gs g1, ← hg1]
    rw [List.map_append]
    simp
  rw [hE] at hgl
  have hdecomp : (e :: m).dropLast ++ [tlast.gene] = e :: m :=
    List.dropLast_append_getLast? tlast.gene hgl
  have hpw : (gs.destutter' (· ≠ ·) g1).Pairwise (· < ·) := by
    apply destutter'_genes_pairwise_lt
    have hch := genes_chain_le hsort
    rw [hg1] at hch
    exact hch
  rw [hE, ← hdecomp] at hpw
  have hlt := (List.pairwise_append.mp hpw).2.2 tlast.gene hmem2 tlast.gene
    (by simp)
  exact absurd hlt (lt_irrefl _)

/-! ### The annotation sort -/

theorem keyLeB_trans (a b c : IsolateMutation) :
    keyLeB a b → keyLeB b c → keyLeB a c := by
  intro hab hbc
  exact decide_eq_true
    (le_trans (of_decide_eq_true hab) (of_decide_eq_true hbc))

theorem keyLeB_total (a b : IsolateMutation) : keyLeB a b || keyLeB b a := by
  rcases le_total a.key b.key with h | h
  · have : keyLeB a b = true := decide_eq_true h
    simp [this]
  · have : keyLeB b a = true := decide_eq_true h
    simp [this]

theorem annotation_list_pairwise (rows : List IsolateMutation) :
    (annotation_list rows).Pairwise keyLe := by
  have h := List.sorted_mergeSort keyLeB_trans keyLeB_total rows
  exact h.imp (fun hab => of_decide_eq_true hab)

/-- C8: the isolate annotation list is Python `sorted(mutations)`: a
permutation of the parsed rows, sorted ascending by the natural field-tuple
order, and — because that order is antisymmetric on full records — the
same list results from any input row order. -/
theorem c8_annotation_list_sorted (rows : List IsolateMutation) :
    (annotation_list rows).Perm rows
    ∧ (annotation_list rows).Pairwise keyLe
    ∧ ∀ rows', rows'.Perm rows → annotation_list rows' = annotation_list rows := by
  refine ⟨List.mergeSort_perm rows _, annotation_list_pairwise rows, ?_⟩
  intro rows' hperm
  exact List.eq_of_perm_of_sorted
    ((List.mergeSort_perm rows' _).trans
      (hperm.trans (List.mergeSort_perm rows _).symm))
    (annotation_list_pairwise rows') (annotation_list_pairwise rows)

/-! ### Concrete runs -/

theorem tA_gene_lt_tB_gene : tA.gene < tB.gene :=
  String.lt_iff_toList_lt.mpr (by decide)

theorem sampleChain : List.Chain' keyLe [tA, tB] := by
  rw [List.chain'_pair]
  exact (Prod.Lex.le_iff _ _).mpr (Or.inl tA_gene_lt_tB_gene)

/-- Evaluation of the reference loader on the two sample rows: the row with
p-value 1 is parsed but dropped; only `goodRow`'s mutation is kept. -/
theorem sample_load : mutationListLoad cpf [goodRow, badPRow] =
    Except.ok ([cM], 1) := by
  have h1 : parseRow cpf goodRow = some cM := by decide
  have h2 : parseRow cpf badPRow =
      some ⟨"katG", "c.944G>C", "p.Ser315Thr", "INH", 1, 12⟩ := by decide
  rw [mutationListLoad]
  rw [mutationLoadGo]
  simp only [h1]
  rw [if_pos (show cM.pvalue < 0.05 by norm_num [cM])]
  rw [mutationLoadGo]
  simp only [h2]
  rw [if_neg (show ¬ ((⟨"katG", "c.944G>C", "p.Ser315Thr", "INH", 1, 12⟩ :
    Mutation).pvalue < 0.05) by norm_num)]
  rw [mutationLoadGo]
  rfl

/-- C1 counterexample: a sorted input in which the gene `rpoB` has exactly
one observed record and never accumulates a second nuc-change entry, yet its
group is emitted (with a single nuc-change entry), because that single
record matched the reference table. -/
theorem c1_counterexample :
    List.Chain' keyLe [tA, tB]
    ∧ resistance_list sampleRefs [tA, tB] = [sampleGroup]
    ∧ sampleGroup.nucs.length = 1 :=
  ⟨sampleChain, by decide, by decide⟩

theorem c1_witness :
    ((stepTarget sampleRefs sampleState tB).resistance_list =
      if sampleState.nuc_record.len > 7 then
        sampleState.resistance_list ++
          [⟨sampleState.gene_record.gene,
            sampleState.gene_record.nucs ++ [sampleState.nuc_record]⟩]
      else sampleState.resistance_list)
    ∧ ∃ nr, sampleGroup.nucs.getLast? = some nr ∧ nr.drugLists ≠ [] :=
  ⟨(c1_flush_needs_matched_nuc sampleRefs).1 sampleState tB (by decide),
    (c1_flush_needs_matched_nuc sampleRefs).2 [tA, tB] sampleGroup (by decide)⟩

/-- C2 counterexample: on a sorted input whose first mutation has zero
reference matches, no NucChangeGroup is emitted for it at all — the whole
gene group is dropped, so the "always emitted with an empty drug-call
sequence" reading fails. -/
theorem c2_counterexample :
    List.Chain' keyLe [tA, tB]
    ∧ (find_drug_resistances [] tA.gene tA.nuchange).2 = []
    ∧ resistance_list [] [tA, tB] = [] :=
  ⟨sampleChain, by decide, by decide⟩

theorem c2_witness : sampleNuc.fields.length = 7 :=
  (c2_no_drug_slot_when_unmatched sampleRefs [tA, tB] (by decide)
    sampleGroup (by decide) sampleNuc (by decide)).1

theorem c5_witness :
    mutationListLoad cpf [goodRow, badPRow] = Except.ok ([cM], 1)
    ∧ (([cM], 1) : List Mutation × Nat).2 =
        (([cM], 1) : List Mutation × Nat).1.length :=
  ⟨sample_load,
    (c5_pvalue_filter cpf [goodRow, badPRow] ([cM], 1) sample_load).2.1⟩

theorem c6_witness :
    ((resistance_list sampleRefs [tA, tB]).map GeneRecord.gene).Sublist
      (([tA, tB].map IsolateMutation.gene).destutter (· ≠ ·))
    ∧ (sampleGroup.nucs.map NucRecord.head).Pairwise (· < ·) :=
  ⟨(c6_order_preservation sampleRefs [tA, tB] sampleChain (by decide)).1,
    (c6_order_preservation sampleRefs [tA, tB] sampleChain (by decide)).2
      sampleGroup (by decide)⟩

theorem c7_witness : sampleGroup.gene ≠ tB.gene :=
  c7_last_gene_absent sampleRefs [tA] tB sampleChain (by decide)
    sampleGroup (by decide)

theorem c8_witness : annotation_list [tA, tB] = annotation_list [tB, tA] :=
  (c8_annotation_list_sorted [tB, tA]).2.2 [tA, tB] (List.Perm.swap tA tB []).symm

theorem c9_witness : mutationListLoad cpf [badRow] =
    Except.error "MalformedRecord" :=
  (c9_all_or_nothing cpf [badRow] ⟨badRow, by decide, by decide⟩).1

theorem c10_witness :
    lqOut = (lqRows.filter (fun r => decide (r[0]? = some "s1"))).map
      (fun r => r.take 5) :=
  c10_low_quals_filter "s1" lqRows lqOut (by rfl)

end MutationReport
